import Mathlib

/-!
Shallow embedding of `robinhood2quicken/export_mint_csv.py` and proofs of the
specification's claims about it.

Modelling conventions:
* Python strings are Lean `String`s; `str.split(sep)` for a one-character
  separator is `pySplitChar` over the character list (every occurrence splits,
  empty segments are kept, `""` splits to `[""]`).
* Python floats are modelled as exact rationals (`ℚ`); `float(s)` on a plain
  decimal literal is `pyFloat?` (no exponent / inf / nan forms, which do not
  occur in this pipeline's data), returning `none` where Python raises
  `ValueError`.
* `np.round(x, 2)` is `npRound2`, round-half-to-even at two decimal places.
* Fallible code (IndexError, ValueError, AssertionError) returns
  `Option` / `Except`.
-/

namespace Robinhood2Quicken

/-- Python `s.split(sep)` for a single-character separator, over character
lists: split at every occurrence of `sep`, keeping empty segments; the result
is always non-empty (`[] → [[]]`, matching Python's `"".split(sep) == [""]`). -/
def pySplitChar (sep : Char) : List Char → List (List Char)
  | [] => [[]]
  | c :: rest =>
    if c = sep then [] :: pySplitChar sep rest
    else
      match pySplitChar sep rest with
      | [] => [[c]]
      | seg :: segs => (c :: seg) :: segs

theorem pySplitChar_ne_nil (sep : Char) (l : List Char) : pySplitChar sep l ≠ [] := by
  induction l with
  | nil => simp [pySplitChar]
  | cons c rest ih =>
    simp only [pySplitChar]
    split
    · simp
    · split
      · simp
      · simp

/-- Joining the split with the separator recovers the original list. -/
theorem join_pySplitChar (sep : Char) (l : List Char) :
    List.flatten (List.intersperse [sep] (pySplitChar sep l)) = l := by
  induction l with
  | nil => simp [pySplitChar]
  | cons c rest ih =>
    simp only [pySplitChar]
    split
    · rename_i hc
      rw [hc]
      cases h : pySplitChar sep rest with
      | nil => exact absurd h (pySplitChar_ne_nil sep rest)
      | cons seg segs =>
        rw [h] at ih
        simpa [List.intersperse] using ih
    · cases h : pySplitChar sep rest with
      | nil => exact absurd h (pySplitChar_ne_nil sep rest)
      | cons seg segs =>
        rw [h] at ih
        cases segs with
        | nil => simpa [List.intersperse] using ih
        | cons s2 ss => simpa [List.intersperse] using ih

/-- Splitting a list that does not contain the separator yields one segment. -/
theorem pySplitChar_of_not_mem (sep : Char) (l : List Char) (h : sep ∉ l) :
    pySplitChar sep l = [l] := by
  induction l with
  | nil => simp [pySplitChar]
  | cons c rest ih =>
    simp only [List.mem_cons, not_or] at h
    simp only [pySplitChar]
    rw [if_neg (fun hc => h.1 hc.symm), ih h.2]

/-- Splitting across one separator occurrence, when the prefix is clean. -/
theorem pySplitChar_append_sep (sep : Char) (xs ys : List Char) (h : sep ∉ xs) :
    pySplitChar sep (xs ++ sep :: ys) = xs :: pySplitChar sep ys := by
  induction xs with
  | nil => simp [pySplitChar]
  | cons c rest ih =>
    simp only [List.mem_cons, not_or] at h
    simp only [List.cons_append, pySplitChar]
    rw [if_neg (fun hc => h.1 hc.symm)]
    simp only [List.append_eq]
    rw [ih h.2]

/-- Numeric value of a digit string (most significant first). -/
def digitsVal (l : List Char) : ℕ :=
  l.foldl (fun a c => a * 10 + (c.toNat - 48)) 0

/-- Python `int(s)` on the digit strings this pipeline feeds it: `some` on a
non-empty all-digit string, `none` (ValueError) otherwise. (Python also
accepts signs and surrounding whitespace, which never occur in well-formed
date segments; those inputs map to `none` here.) -/
def pyInt? (l : List Char) : Option ℕ :=
  if l ≠ [] ∧ l.all (·.isDigit) then some (digitsVal l) else none

/-- Python `float(s)` on the plain decimal literals this pipeline feeds it
(optional sign, digits, optional fractional part), as an exact rational.
`none` models ValueError; exponent / inf / nan forms also map to `none`. -/
def pyFloat? (s : String) : Option ℚ :=
  let (sgn, body) : ℚ × List Char :=
    match s.data with
    | '-' :: r => (-1, r)
    | '+' :: r => (1, r)
    | r => (1, r)
  match pySplitChar '.' body with
  | [ip] =>
    if ip ≠ [] ∧ ip.all (·.isDigit) then some (sgn * digitsVal ip) else none
  | [ip, fp] =>
    if (ip ≠ [] ∨ fp ≠ []) ∧ ip.all (·.isDigit) ∧ fp.all (·.isDigit) then
      some (sgn * ((digitsVal ip : ℚ) + (digitsVal fp : ℚ) / 10 ^ fp.length))
    else none
  | _ => none

/-- Round to the nearest integer, ties to even (C `rint`, used by `np.round`). -/
def rintZ (q : ℚ) : ℤ :=
  if q - ⌊q⌋ < 1 / 2 then ⌊q⌋
  else if 1 / 2 < q - ⌊q⌋ then ⌊q⌋ + 1
  else if ⌊q⌋ % 2 = 0 then ⌊q⌋ else ⌊q⌋ + 1

/-- Model of `np.round(x, 2)`: scale by 100, round half to even, scale back. -/
def npRound2 (q : ℚ) : ℚ :=
  (rintZ (q * 100) : ℚ) / 100

/-- The function `convert_robinhood_date` from `export_mint_csv.py`:

    new_date = robinhood_date.split("-")
    return '/'.join([new_date[1], new_date[2], new_date[0]])

`none` models the IndexError raised when the split has fewer than three
segments; with three or more segments the first three are joined (any extra
segments are dropped, as in the source).
-/
def convert_robinhood_date (robinhood_date : String) : Option String :=
  match pySplitChar '-' robinhood_date.data with
  | a :: b :: c :: _ => some (String.mk (b ++ '/' :: (c ++ '/' :: a)))
  | _ => none

/-- One execution of an order, as returned by the Robinhood API (all fields
arrive as JSON strings). -/
structure Execution where
  quantity : String
  price : String
  timestamp : String
  deriving DecidableEq, Repr

/-- One order from `order_history()["results"]`. -/
structure Order where
  instrument : String
  side : String
  executions : List Execution
  deriving DecidableEq, Repr

/-- One record from `dividends()["results"]`; `paid_at` is `none` for JSON
null. -/
structure RawDividend where
  instrument : String
  amount : String
  payable_date : String
  paid_at : Option String
  deriving DecidableEq, Repr

/-- The dict built per trade by `get_robinhood_trade_data`. -/
structure TradeData where
  ticker : String
  side : String
  quantity : String
  price : String
  date : String
  cost : ℚ
  deriving DecidableEq, Repr

/-- The dict built per dividend by `get_robinhood_dividend_data`. -/
structure DividendData where
  amount : String
  date : String
  ticker : String
  deriving DecidableEq, Repr

/-- One output row of the Mint CSV, keyed as in `MINT_HEADERS`; `none` models
Python `None` in a dict value. -/
structure MintRow where
  date : String
  descriptionOriginal : String
  description : String
  amount : ℚ
  transactionType : String
  category : Option String
  accountName : Option String
  labels : Option String
  notes : Option String
  deriving DecidableEq, Repr

/-- The fixed CSV header tuple `MINT_HEADERS`. -/
def MINT_HEADERS : List String :=
  ["Date", "Description Original", "Description", "Amount", "Transaction Type",
   "Category", "Account Name", "Labels", "Notes"]

/-- Python truthiness of an optional string (`None` and `""` are falsy). -/
def truthyStr : Option String → Bool
  | none => false
  | some s => !s.isEmpty

/-- Python truthiness of an optional list (`None` and `[]` are falsy). -/
def truthyList : Option (List α) → Bool
  | none => false
  | some l => !l.isEmpty

/-- Head segment of a split (the split is never empty, so the default is
unreachable); models Python's `s.split("T")[0]`. -/
def splitHead (sep : Char) (s : String) : String :=
  match pySplitChar sep s.data with
  | seg :: _ => String.mk seg
  | [] => ""

/-- The per-order body of `get_robinhood_trade_data`'s loop. The instrument
lookup is modelled by `api : String → String` (instrument URL to symbol);
orders without executions are skipped; `float(price)` and `float(quantity)`
can raise (ValueError), modelled by the `Option` bind (price first, as in
`float(price)*float(quantity)`).
-/
def tradeFetchLoop (api : String → String) : List Order → Option (List TradeData)
  | [] => some []
  | o :: os =>
    let ticker := api o.instrument
    match o.executions with
    | [] => tradeFetchLoop api os
    | e :: _ =>
      (pyFloat? e.price).bind fun p =>
        (pyFloat? e.quantity).bind fun q =>
          (tradeFetchLoop api os).bind fun rest =>
            some ({ ticker := ticker, side := o.side, quantity := e.quantity,
                    price := e.price, date := splitHead 'T' e.timestamp,
                    cost := p * q } :: rest)

/-- Function `get_robinhood_trade_data`, with the already-fetched
`order_history()["results"]` list and the instrument-symbol lookup passed
explicitly. -/
def get_robinhood_trade_data (api : String → String) (orders : List Order) :
    Option (List TradeData) :=
  tradeFetchLoop api orders

/-- Function `get_robinhood_dividend_data`, with the already-fetched
`dividends()["results"]` list and the instrument-symbol lookup passed
explicitly. A record is kept only when `paid_at` is truthy. -/
def get_robinhood_dividend_data (api : String → String) :
    List RawDividend → List DividendData
  | [] => []
  | d :: ds =>
    if truthyStr d.paid_at then
      { amount := d.amount, date := d.payable_date,
        ticker := api d.instrument } :: get_robinhood_dividend_data api ds
    else
      get_robinhood_dividend_data api ds

/-- The trade branch of `parse_robinhood_data_to_mint`'s loop body;
`convert_robinhood_date` may raise (IndexError). -/
def tradeToMint (line : TradeData) : Option MintRow :=
  (convert_robinhood_date line.date).bind fun d =>
  some { date := d, descriptionOriginal := line.ticker,
         description := "Investments:" ++ line.side,
         amount := npRound2 line.cost,
         transactionType := "credit",
         category := some line.side, accountName := none,
         labels := some line.quantity, notes := some line.price }

/-- The dividend branch of `parse_robinhood_data_to_mint`'s loop body;
`convert_robinhood_date` and `float(line["amount"])` may raise. -/
def dividendToMint (line : DividendData) : Option MintRow :=
  (convert_robinhood_date line.date).bind fun d =>
  (pyFloat? line.amount).bind fun a =>
  some { date := d, descriptionOriginal := line.ticker,
         description := "Investments:Dividend Income",
         amount := npRound2 a,
         transactionType := "credit",
         category := none, accountName := none,
         labels := none, notes := none }

/-- Run a fallible row conversion over a list, failing on the first error
(the body of a `for` loop that appends, aborted by an exception). -/
def mapOpt (f : α → Option β) : List α → Option (List β)
  | [] => some []
  | a :: as =>
    (f a).bind fun b =>
      (mapOpt f as).bind fun bs =>
        some (b :: bs)

/-- Function `parse_robinhood_data_to_mint`: either argument may be `None`; the
`if trade_data:` / `if dividend_data:` guards test Python truthiness, so
`None` and `[]` alike contribute nothing. Trades are converted first, then
dividends, each in source order. -/
def parse_robinhood_data_to_mint (trade_data : Option (List TradeData))
    (dividend_data : Option (List DividendData)) : Option (List MintRow) :=
  (if truthyList trade_data then mapOpt tradeToMint (trade_data.getD [])
   else some []).bind fun mint1 =>
    (if truthyList dividend_data then mapOpt dividendToMint (dividend_data.getD [])
     else some []).bind fun mint2 =>
      some (mint1 ++ mint2)

/-- Gregorian leap-year test (as in `datetime`). -/
def isLeapYear (y : ℕ) : Bool :=
  (y % 4 == 0 && y % 100 != 0) || y % 400 == 0

/-- Days in a month, as validated by the `datetime` constructor. -/
def daysInMonth (y m : ℕ) : ℕ :=
  if m = 2 then (if isLeapYear y then 29 else 28)
  else if m = 4 ∨ m = 6 ∨ m = 9 ∨ m = 11 then 30
  else 31

/-- The ranges accepted by `datetime(year, month, day)`. -/
def dateOK (y m d : ℕ) : Bool :=
  1 ≤ y && y ≤ 9999 && 1 ≤ m && m ≤ 12 && 1 ≤ d && d ≤ daysInMonth y m

/-- Model of `m, d, y = s.split("/"); datetime(int(y), int(m), int(d))`: parse an
MM/DD/YYYY string to a `(year, month, day)` triple; `none` models the
ValueError from a wrong segment count, a non-numeric segment, or an
out-of-range date. -/
def parseMDY (s : String) : Option (ℕ × ℕ × ℕ) :=
  match pySplitChar '/' s.data with
  | [ms, ds, ys] =>
    (pyInt? ys).bind fun y =>
      (pyInt? ms).bind fun m =>
        (pyInt? ds).bind fun d =>
          if dateOK y m d then some (y, m, d) else none
  | _ => none

/-- Python `datetime` comparison on `(year, month, day)` triples: lexicographic,
i.e. comparison of calendar dates. -/
def dateLtB : ℕ × ℕ × ℕ → ℕ × ℕ × ℕ → Bool
  | (y1, m1, d1), (y2, m2, d2) =>
    y1 < y2 || (y1 == y2 && (m1 < m2 || (m1 == m2 && d1 < d2)))

/-- The row loop of `filter_by_date`: parse each row's date, keep the row when
it is strictly later than the cutoff; a parse failure anywhere aborts. -/
def filterLoop (fd : ℕ × ℕ × ℕ) : List MintRow → Option (List MintRow)
  | [] => some []
  | r :: rs =>
    (parseMDY r.date).bind fun td =>
      (filterLoop fd rs).bind fun rest =>
        some (if dateLtB fd td then r :: rest else rest)

/-- Function `filter_by_date` (with the default `key="Date"` column, the `date` field
of `MintRow`). -/
def filter_by_date (date : String) (data : List MintRow) : Option (List MintRow) :=
  (parseMDY date).bind fun fd => filterLoop fd data

/-- Index of the last occurrence of `c` in `l`, or `-1` (Python `str.rfind`). -/
def rfindChar (c : Char) (l : List Char) : Int :=
  (List.range l.length).foldl
    (fun acc (i : ℕ) => if l[i]? = some c then (i : Int) else acc) (-1)

/-- Model of `os.path.splitext(p)[1]`: the extension starts at the last dot, provided
it comes after the last path separator and the basename has a non-dot
character before it (so leading dots do not start an extension). -/
def splitextExt (p : String) : String :=
  let l := p.data
  let sepIndex := rfindChar '/' l
  let dotIndex := rfindChar '.' l
  if sepIndex < dotIndex then
    let hasNonDot := (List.range l.length).any fun i =>
      decide (sepIndex < (i : Int)) && decide ((i : Int) < dotIndex) &&
        !(l[i]? == some '.')
    if hasNonDot then String.mk (l.drop dotIndex.toNat) else ""
  else ""

/-- Function `write_csv`: the assert on the output path's extension runs
before the `open`, so the `Except.error` branch (AssertionError) means no
file was created; the `Except.ok` branch models opening the file, writing the
header and rows, and returning `output_path` as the source does. -/
def write_csv (header : List String) (data : List MintRow) (output_path : String) :
    Except String String :=
  if splitextExt output_path = ".csv" then
    Except.ok output_path
  else
    Except.error "Outpath must end with the .csv extension"

/-- Observable actions of `main`, in execution order. -/
inductive Event where
  | usageAndDie (msg : String)
  | fetchDividends
  | fetchTrades
  | writeCsv (path : String)
  deriving DecidableEq, Repr

/-- The external world `main` runs against: the result of `login`, the
already-fetched API payloads, and the instrument-symbol lookup. -/
structure Env where
  login_ok : Bool
  orders : List Order
  divs : List RawDividend
  api : String → String

/-- The parsed command-line values `main` reads: `trades` / `dividends` hold
the truthiness of `args["trades"]` / `args["dividends"]` (argparse default
`True`), and `date` / `output` are `none` for their `False` defaults. -/
structure Args where
  trades : Bool
  dividends : Bool
  date : Option String
  output : Option String

/-- The argparse defaults: trades and dividends truthy, no date, no output. -/
def defaultArgs : Args :=
  { trades := true, dividends := true, date := none, output := none }

/-- The tail of `main` after the two fetches: parse to Mint rows, optionally
filter by date, and write the CSV; an exception exits with status 1, normal
completion with status 0. -/
def mainAfterFetch (ev : List Event) (args : Args)
    (trade_data : Option (List TradeData)) (dividend_data : Option (List DividendData)) :
    List Event × ℕ :=
  match parse_robinhood_data_to_mint trade_data dividend_data with
  | none => (ev, 1)
  | some mint0 =>
    let filtered : Option (List MintRow) :=
      if truthyStr args.date then filter_by_date (args.date.getD "") mint0 else some mint0
    match filtered with
    | none => (ev, 1)
    | some mint_data =>
      let path := if truthyStr args.output then args.output.getD "" else "robinhood_output.csv"
      match write_csv MINT_HEADERS mint_data path with
      | Except.ok _ => (ev ++ [Event.writeCsv path], 0)
      | Except.error _ => (ev ++ [Event.writeCsv path], 1)

/-- Function `main`: note that when login fails, `do_usage_and_die` prints and returns
2, but `main` ignores that return value and falls through to the fetches, the
conversion and the write; the run then ends with exit status 0 unless a later
step raises. -/
def mainRun (env : Env) (args : Args) : List Event × ℕ :=
  let ev0 : List Event :=
    if env.login_ok then [] else [Event.usageAndDie "Username or Password is incorrect"]
  let dividend_data : Option (List DividendData) :=
    if args.dividends then some (get_robinhood_dividend_data env.api env.divs) else none
  let ev1 := ev0 ++ (if args.dividends then [Event.fetchDividends] else [])
  let ev2 := ev1 ++ (if args.trades then [Event.fetchTrades] else [])
  if args.trades then
    match get_robinhood_trade_data env.api env.orders with
    | none => (ev2, 1)
    | some td => mainAfterFetch ev2 args (some td) dividend_data
  else
    mainAfterFetch ev2 args none dividend_data

/-- The spec's per-trade mapping (Section 4.2 / claim C6), stated from the
spec's words, to be compared with what `parse_robinhood_data_to_mint`
produces: Date = executedDate as MM/DD/YYYY, Description Original = ticker,
Description = "Investments:" + side, Amount = round(cost, 2), Category =
side, Labels = quantity, Notes = price. -/
def specTradeRow (t : TradeData) : MintRow :=
  { date := (convert_robinhood_date t.date).getD "",
    descriptionOriginal := t.ticker,
    description := "Investments:" ++ t.side,
    amount := npRound2 t.cost,
    transactionType := "credit",
    category := some t.side, accountName := none,
    labels := some t.quantity, notes := some t.price }

/-- The spec's per-dividend mapping (Section 4.2), stated from the spec's
words: Date = payableDate as MM/DD/YYYY, Description Original = ticker,
Description = "Investments:Dividend Income", Amount = round(amount, 2),
Category / Labels / Notes empty. -/
def specDividendRow (d : DividendData) : MintRow :=
  { date := (convert_robinhood_date d.date).getD "",
    descriptionOriginal := d.ticker,
    description := "Investments:Dividend Income",
    amount := npRound2 ((pyFloat? d.amount).getD 0),
    transactionType := "credit",
    category := none, accountName := none,
    labels := none, notes := none }

/-- Parse a valid ISO `YYYY-MM-DD` string to `(year, month, day)`: exactly
three `-`-separated all-digit segments denoting an in-range calendar date
(what the spec calls a "valid ISO date string"). -/
def parseISO (s : String) : Option (ℕ × ℕ × ℕ) :=
  match pySplitChar '-' s.data with
  | [ys, ms, ds] =>
    (pyInt? ys).bind fun y =>
      (pyInt? ms).bind fun m =>
        (pyInt? ds).bind fun d =>
          if dateOK y m d then some (y, m, d) else none
  | _ => none

/-- Modelled from the spec: the inverse date conversion (MM/DD/YYYY back to
YYYY-MM-DD) used by the round-trip property of Section 8; the repository
defines no such function, so it is written here as the mirror image of
`convert_robinhood_date`. -/
def convert_mint_date (mint_date : String) : Option String :=
  match pySplitChar '/' mint_date.data with
  | m :: d :: y :: _ => some (String.mk (y ++ '-' :: (m ++ '-' :: d)))
  | _ => none

/-- A concrete order used to exercise the pipeline (the spec's Section 8
trade scenario). -/
def demoOrder : Order :=
  { instrument := "instrument-url-1", side := "buy",
    executions := [{ quantity := "10", price := "150.005",
                     timestamp := "2020-01-15T00:00:00Z" }] }

/-- The `TradeData` dict `get_robinhood_trade_data` builds from `demoOrder`. -/
def demoTrade : TradeData :=
  { ticker := "AAPL", side := "buy", quantity := "10", price := "150.005",
    date := "2020-01-15",
    cost := (pyFloat? "150.005").getD 0 * (pyFloat? "10").getD 0 }

/-- A concrete settled dividend (the spec's Section 8 dividend scenario). -/
def demoDividend : RawDividend :=
  { instrument := "instrument-url-2", amount := "5.04",
    payable_date := "2017-05-18", paid_at := some "2017-05-18T00:00:00Z" }

/-- The `DividendData` dict `get_robinhood_dividend_data` builds from
`demoDividend`. -/
def demoDivData : DividendData :=
  { amount := "5.04", date := "2017-05-18", ticker := "MSFT" }

/-- A concrete dividend record whose `paid_at` is JSON null (unsettled). -/
def demoNullDividend : RawDividend :=
  { instrument := "instrument-url-3", amount := "1.00",
    payable_date := "2018-01-02", paid_at := none }

/-- A concrete dividend record whose `paid_at` is present but is the empty
string (non-null yet falsy). -/
def demoEmptyPaidDividend : RawDividend :=
  { instrument := "instrument-url-4", amount := "2.00",
    payable_date := "2018-03-04", paid_at := some "" }

/-- A concrete output row dated exactly on the cutoff used in the filter
scenario. -/
def demoRowOnCutoff : MintRow :=
  { date := "05/18/2017", descriptionOriginal := "MSFT",
    description := "Investments:Dividend Income", amount := 126 / 25,
    transactionType := "credit", category := none, accountName := none,
    labels := none, notes := none }

/-- A concrete output row dated the day after the cutoff. -/
def demoRowAfterCutoff : MintRow :=
  { date := "05/19/2017", descriptionOriginal := "AAPL",
    description := "Investments:buy", amount := 30001 / 20,
    transactionType := "credit", category := some "buy", accountName := none,
    labels := some "10", notes := some "150.005" }

/-! ### Helper lemmas -/

theorem mapOpt_eq_map (f : α → Option β) (g : α → β) (l : List α)
    (h : ∀ a ∈ l, f a = some (g a)) : mapOpt f l = some (l.map g) := by
  induction l with
  | nil => rfl
  | cons a as ih =>
    have ha := h a (List.mem_cons_self a as)
    have ih2 := ih fun x hx => h x (List.mem_cons_of_mem a hx)
    simp [mapOpt, ha, ih2]

theorem mapOpt_mem (f : α → Option β) (l : List α) (bs : List β)
    (h : mapOpt f l = some bs) : ∀ b ∈ bs, ∃ a ∈ l, f a = some b := by
  induction l generalizing bs with
  | nil =>
    simp only [mapOpt] at h
    cases h
    intro b hb
    cases hb
  | cons a as ih =>
    simp only [mapOpt] at h
    cases hfa : f a with
    | none =>
      simp only [hfa, Option.none_bind] at h
      exact Option.noConfusion h
    | some b0 =>
      simp only [hfa, Option.some_bind] at h
      cases hrest : mapOpt f as with
      | none =>
        simp only [hrest, Option.none_bind] at h
        exact Option.noConfusion h
      | some bs0 =>
        simp only [hrest, Option.some_bind, Option.some.injEq] at h
        subst h
        intro b hb
        rcases List.mem_cons.mp hb with hb0 | hbs
        · exact ⟨a, List.mem_cons_self a as, hb0 ▸ hfa⟩
        · obtain ⟨x, hx, hfx⟩ := ih bs0 hrest b hbs
          exact ⟨x, List.mem_cons_of_mem a hx, hfx⟩

theorem truthy_branch_eq (f : α → Option β) (l : List α) :
    (if truthyList (some l) then mapOpt f l else some []) = mapOpt f l := by
  cases l with
  | nil => rfl
  | cons a as => rfl

/-- Lemma: `parse_robinhood_data_to_mint` on two present lists is the two mapped
conversions, trades first. -/
theorem parse_eq_bind (td : List TradeData) (dd : List DividendData) :
    parse_robinhood_data_to_mint (some td) (some dd) =
      (mapOpt tradeToMint td).bind fun m1 =>
        (mapOpt dividendToMint dd).bind fun m2 => some (m1 ++ m2) := by
  unfold parse_robinhood_data_to_mint
  simp only [Option.getD_some]
  rw [truthy_branch_eq, truthy_branch_eq]

theorem rintZ_nonneg (q : ℚ) (h : 0 ≤ q) : 0 ≤ rintZ q := by
  have hf : (0 : ℤ) ≤ ⌊q⌋ := Int.le_floor.mpr (by exact_mod_cast h)
  unfold rintZ
  split
  · exact hf
  · split
    · omega
    · split
      · exact hf
      · omega

theorem npRound2_nonneg (q : ℚ) (h : 0 ≤ q) : 0 ≤ npRound2 q := by
  unfold npRound2
  have hz := rintZ_nonneg (q * 100) (by positivity)
  have hq : (0 : ℚ) ≤ (rintZ (q * 100) : ℚ) := by exact_mod_cast hz
  positivity

theorem npRound2_two_decimals (q : ℚ) (h : 0 ≤ q) :
    ∃ n : ℕ, npRound2 q = (n : ℚ) / 100 := by
  refine ⟨(rintZ (q * 100)).toNat, ?_⟩
  unfold npRound2
  have h2 : ((rintZ (q * 100)).toNat : ℤ) = rintZ (q * 100) :=
    Int.toNat_of_nonneg (rintZ_nonneg (q * 100) (by positivity))
  have h3 : (((rintZ (q * 100)).toNat : ℕ) : ℚ) = ((rintZ (q * 100) : ℤ) : ℚ) := by
    exact_mod_cast h2
  rw [h3]

theorem digit_ne_of_all_digit (sep : Char) (hsep : sep.isDigit = false)
    (l : List Char) (h : l.all (·.isDigit) = true) : sep ∉ l := by
  intro hmem
  have hd : sep.isDigit = true := by
    have hall := List.all_eq_true.mp h sep hmem
    simpa using hall
  rw [hd] at hsep
  exact Bool.noConfusion hsep

theorem pyInt?_digits (l : List Char) (n : ℕ) (h : pyInt? l = some n) :
    l ≠ [] ∧ l.all (·.isDigit) = true := by
  unfold pyInt? at h
  split at h
  · rename_i hcond
    exact ⟨hcond.1, hcond.2⟩
  · cases h

/-! ### Claim theorems -/

/-- C1: the spec claims that when `login` returns false the run is aborted
before any data is fetched, with a non-zero exit status and no call to
`get_robinhood_trade_data`, `get_robinhood_dividend_data` or `write_csv`.
The code, contradicting `do_usage_and_die`'s own docstring ("terminate
execution of the program"), only prints the error and usage (the returned 2
is discarded), then fetches dividends, fetches trades, writes the CSV, and
exits with status 0: -/
theorem c1_login_failure_does_not_abort :
    mainRun { login_ok := false, orders := [demoOrder], divs := [demoDividend],
              api := fun _ => "AAPL" } defaultArgs =
      ([Event.usageAndDie "Username or Password is incorrect",
        Event.fetchDividends, Event.fetchTrades,
        Event.writeCsv "robinhood_output.csv"], 0) := by
  decide

/-- C2 counterexample: `"2020-01-15-00"` does not split into exactly three
`-`-separated segments (it has four), yet `convert_robinhood_date` does not
reject it: it silently drops the extra segment and returns an output date. -/
theorem c2_counterexample :
    (pySplitChar '-' ("2020-01-15-00").data).length = 4 ∧
    convert_robinhood_date "2020-01-15-00" = some "01/15/2020" := by
  decide

/-- C2 (amended): `convert_robinhood_date` fails (IndexError) exactly when the
input has fewer than three `-`-separated segments; with three or more
segments it returns output built from the first three, silently dropping any
extra segments. -/
theorem c2_amended_reject_only_short (s : String) :
    (convert_robinhood_date s = none ↔ (pySplitChar '-' s.data).length < 3) ∧
    (∀ a b c rest, pySplitChar '-' s.data = a :: b :: c :: rest →
      convert_robinhood_date s = some (String.mk (b ++ '/' :: (c ++ '/' :: a)))) := by
  constructor
  · rcases h : pySplitChar '-' s.data with _ | ⟨a, _ | ⟨b, _ | ⟨c, rest⟩⟩⟩ <;>
      simp [convert_robinhood_date, h]
  · intro a b c rest h
    simp [convert_robinhood_date, h]

/-- C2 witness for the amended claim, at a well-formed three-segment input. -/
theorem c2_amended_witness :
    convert_robinhood_date "2017-05-18" = some "05/18/2017" := by
  have h := (c2_amended_reject_only_short "2017-05-18").2
    "2017".data "05".data "18".data [] (by decide)
  exact h.trans (by decide)

/-- C4: for every output path whose `os.path.splitext` extension is not
".csv", `write_csv` fails with the AssertionError before the file is opened,
so no file is created at the destination. -/
theorem c4_write_csv_wrong_extension (header : List String) (data : List MintRow)
    (output_path : String) (h : splitextExt output_path ≠ ".csv") :
    write_csv header data output_path =
      Except.error "Outpath must end with the .csv extension" := by
  simp [write_csv, h]

/-- C4 witness: the spec's scenario, output path "out.txt". -/
theorem c4_witness :
    write_csv MINT_HEADERS [] "out.txt" =
      Except.error "Outpath must end with the .csv extension" :=
  c4_write_csv_wrong_extension MINT_HEADERS [] "out.txt" (by decide)

/-- C5: a dividend record whose "paid at" field is null contributes nothing:
removing it from the fetched list changes neither the data
`get_robinhood_dividend_data` returns nor the rows the pipeline emits, so no
OutputRow ever corresponds to it. -/
theorem c5_null_paid_at_never_emitted (api : String → String)
    (ds1 ds2 : List RawDividend) (d : RawDividend) (td : Option (List TradeData))
    (h : d.paid_at = none) :
    get_robinhood_dividend_data api (ds1 ++ d :: ds2) =
      get_robinhood_dividend_data api (ds1 ++ ds2) ∧
    parse_robinhood_data_to_mint td
        (some (get_robinhood_dividend_data api (ds1 ++ d :: ds2))) =
      parse_robinhood_data_to_mint td
        (some (get_robinhood_dividend_data api (ds1 ++ ds2))) := by
  have key : get_robinhood_dividend_data api (ds1 ++ d :: ds2) =
      get_robinhood_dividend_data api (ds1 ++ ds2) := by
    induction ds1 with
    | nil => simp [get_robinhood_dividend_data, h, truthyStr]
    | cons e es ih =>
      simp only [List.cons_append, get_robinhood_dividend_data, List.append_eq]
      rw [ih]
  exact ⟨key, by rw [key]⟩

/-- C5 witness: a concrete null-`paid_at` record among settled ones. -/
theorem c5_witness :
    get_robinhood_dividend_data (fun _ => "MSFT")
        ([] ++ demoNullDividend :: [demoDividend]) =
      get_robinhood_dividend_data (fun _ => "MSFT") ([] ++ [demoDividend]) :=
  (c5_null_paid_at_never_emitted (fun _ => "MSFT") [] [demoDividend]
    demoNullDividend none rfl).1

/-- C9: a dividend record whose "paid_at" is present but is the empty string
(non-null yet falsy) is excluded by `get_robinhood_dividend_data` exactly as
if it were null, and the pipeline emits no row for it. -/
theorem c9_empty_paid_at_excluded (api : String → String)
    (ds1 ds2 : List RawDividend) (d : RawDividend) (td : Option (List TradeData))
    (h : d.paid_at = some "") :
    get_robinhood_dividend_data api (ds1 ++ d :: ds2) =
      get_robinhood_dividend_data api (ds1 ++ ds2) ∧
    parse_robinhood_data_to_mint td
        (some (get_robinhood_dividend_data api (ds1 ++ d :: ds2))) =
      parse_robinhood_data_to_mint td
        (some (get_robinhood_dividend_data api (ds1 ++ ds2))) := by
  have key : get_robinhood_dividend_data api (ds1 ++ d :: ds2) =
      get_robinhood_dividend_data api (ds1 ++ ds2) := by
    induction ds1 with
    | nil => simp [get_robinhood_dividend_data, h, truthyStr, String.isEmpty]
    | cons e es ih =>
      simp only [List.cons_append, get_robinhood_dividend_data, List.append_eq]
      rw [ih]
  exact ⟨key, by rw [key]⟩

/-- C9 witness: a concrete empty-string-`paid_at` record among settled ones. -/
theorem c9_witness :
    get_robinhood_dividend_data (fun _ => "MSFT")
        ([] ++ demoEmptyPaidDividend :: [demoDividend]) =
      get_robinhood_dividend_data (fun _ => "MSFT") ([] ++ [demoDividend]) :=
  (c9_empty_paid_at_excluded (fun _ => "MSFT") [] [demoDividend]
    demoEmptyPaidDividend none rfl).1

/-- C10: `parse_robinhood_data_to_mint` accepts `None` in place of either
input list: with both inputs `None` (or empty) it returns the empty list, and
a `None` input for one group contributes no rows while the other group is
still converted normally (the same rows as converting that group alone). -/
theorem c10_none_inputs_handled (td : List TradeData) (dd : List DividendData) :
    parse_robinhood_data_to_mint none none = some [] ∧
    parse_robinhood_data_to_mint (some []) (some []) = some [] ∧
    parse_robinhood_data_to_mint none (some dd) = mapOpt dividendToMint dd ∧
    parse_robinhood_data_to_mint (some td) none = mapOpt tradeToMint td := by
  refine ⟨rfl, rfl, ?_, ?_⟩
  · unfold parse_robinhood_data_to_mint
    simp only [Option.getD_some]
    rw [truthy_branch_eq]
    cases hm : mapOpt dividendToMint dd <;> simp [hm, truthyList]
  · unfold parse_robinhood_data_to_mint
    simp only [Option.getD_some]
    rw [truthy_branch_eq]
    cases hm : mapOpt tradeToMint td <;> simp [hm, truthyList]

/-- When every row's date parses, the filter loop is an ordinary
order-preserving `List.filter` on the strict calendar-date comparison. -/
theorem filterLoop_eq_filter (fd : ℕ × ℕ × ℕ) (data : List MintRow)
    (h : ∀ r ∈ data, (parseMDY r.date).isSome) :
    filterLoop fd data =
      some (data.filter fun r =>
        match parseMDY r.date with
        | some td => dateLtB fd td
        | none => false) := by
  induction data with
  | nil => rfl
  | cons r rs ih =>
    obtain ⟨td, htd⟩ := Option.isSome_iff_exists.mp (h r (List.mem_cons_self r rs))
    have ih2 := ih fun x hx => h x (List.mem_cons_of_mem r hx)
    simp only [filterLoop, htd, Option.some_bind, ih2, List.filter_cons]

/-- C3: for a cutoff date in MM/DD/YYYY form and rows with well-formed
MM/DD/YYYY dates, `filter_by_date` returns exactly the rows whose
`(year, month, day)` triple — the calendar date, not the string — is
strictly later than the cutoff's, preserving their relative order; a row
dated exactly on the cutoff fails the strict comparison and is dropped. -/
theorem c3_filter_by_date_strictly_later (date : String) (data : List MintRow)
    (fd : ℕ × ℕ × ℕ) (hc : parseMDY date = some fd)
    (hrows : ∀ r ∈ data, (parseMDY r.date).isSome) :
    filter_by_date date data =
      some (data.filter fun r =>
        match parseMDY r.date with
        | some td => dateLtB fd td
        | none => false) := by
  unfold filter_by_date
  rw [hc, Option.some_bind]
  exact filterLoop_eq_filter fd data hrows

/-- C3 witness: the spec's scenario — cutoff "05/18/2017", a row dated
exactly on the cutoff is dropped, a later row is kept in order. -/
theorem c3_witness :
    filter_by_date "05/18/2017" [demoRowOnCutoff, demoRowAfterCutoff] =
      some [demoRowAfterCutoff] := by
  have h := c3_filter_by_date_strictly_later "05/18/2017"
    [demoRowOnCutoff, demoRowAfterCutoff] (2017, 5, 18) (by decide) (by decide)
  exact h.trans rfl

/-- C7 (reason: the inverse conversion is modelled from the spec as
`convert_mint_date`): for every valid ISO date string "YYYY-MM-DD",
`convert_robinhood_date` produces an "MM/DD/YYYY" string denoting the same
calendar date `(y, m, d)`, and converting back yields the original string. -/
theorem c7_convert_roundtrip (s : String) (y m d : ℕ)
    (h : parseISO s = some (y, m, d)) :
    ∃ t, convert_robinhood_date s = some t ∧ parseMDY t = some (y, m, d) ∧
      convert_mint_date t = some s := by
  unfold parseISO at h
  rcases hsp : pySplitChar '-' s.data with _ | ⟨ys, _ | ⟨ms, _ | ⟨ds, _ | ⟨e, tail⟩⟩⟩⟩ <;>
    simp only [hsp] at h <;>
    try exact Option.noConfusion h
  case cons.cons.cons.nil =>
    -- exactly three segments
    cases hy : pyInt? ys with
    | none => simp only [hy, Option.none_bind] at h; exact Option.noConfusion h
    | some y0 =>
    cases hm : pyInt? ms with
    | none => simp only [hy, hm, Option.some_bind, Option.none_bind] at h; exact Option.noConfusion h
    | some m0 =>
    cases hd : pyInt? ds with
    | none => simp only [hy, hm, hd, Option.some_bind, Option.none_bind] at h; exact Option.noConfusion h
    | some d0 =>
    simp only [hy, hm, hd, Option.some_bind] at h
    by_cases hok : dateOK y0 m0 d0 = true
    case neg => rw [if_neg hok] at h; exact Option.noConfusion h
    rw [if_pos hok] at h
    cases h
    -- segment digit facts
    have hysd := pyInt?_digits ys y hy
    have hmsd := pyInt?_digits ms m hm
    have hdsd := pyInt?_digits ds d hd
    have hysSlash : '/' ∉ ys := digit_ne_of_all_digit '/' (by decide) ys hysd.2
    have hmsSlash : '/' ∉ ms := digit_ne_of_all_digit '/' (by decide) ms hmsd.2
    have hdsSlash : '/' ∉ ds := digit_ne_of_all_digit '/' (by decide) ds hdsd.2
    refine ⟨String.mk (ms ++ '/' :: (ds ++ '/' :: ys)), ?_, ?_, ?_⟩
    · simp only [convert_robinhood_date, hsp]
    · -- the produced string parses as the same (y, m, d)
      have hdata : (String.mk (ms ++ '/' :: (ds ++ '/' :: ys))).data =
          ms ++ '/' :: (ds ++ '/' :: ys) := rfl
      have hsplit : pySplitChar '/' (ms ++ '/' :: (ds ++ '/' :: ys)) = [ms, ds, ys] := by
        rw [pySplitChar_append_sep '/' ms _ hmsSlash,
            pySplitChar_append_sep '/' ds _ hdsSlash,
            pySplitChar_of_not_mem '/' ys hysSlash]
      unfold parseMDY
      rw [hdata, hsplit]
      simp only [hy, hm, hd, Option.some_bind]
      rw [if_pos hok]
    · -- converting back recovers s
      have hdata : (String.mk (ms ++ '/' :: (ds ++ '/' :: ys))).data =
          ms ++ '/' :: (ds ++ '/' :: ys) := rfl
      have hsplit : pySplitChar '/' (ms ++ '/' :: (ds ++ '/' :: ys)) = [ms, ds, ys] := by
        rw [pySplitChar_append_sep '/' ms _ hmsSlash,
            pySplitChar_append_sep '/' ds _ hdsSlash,
            pySplitChar_of_not_mem '/' ys hysSlash]
      unfold convert_mint_date
      rw [hdata, hsplit]
      have hjoin := join_pySplitChar '-' s.data
      rw [hsp] at hjoin
      have hback : ys ++ '-' :: (ms ++ '-' :: ds) = s.data := by
        simpa [List.intersperse] using hjoin
      show some (String.mk (ys ++ '-' :: (ms ++ '-' :: ds))) = some s
      rw [hback]

/-- C7 witness: the concrete dividend date "2017-05-18". -/
theorem c7_witness :
    convert_robinhood_date "2017-05-18" = some "05/18/2017" ∧
    parseMDY "05/18/2017" = some (2017, 5, 18) ∧
    convert_mint_date "05/18/2017" = some "2017-05-18" := by
  obtain ⟨t, h1, h2, h3⟩ := c7_convert_roundtrip "2017-05-18" 2017 5 18 (by decide)
  have ht : t = "05/18/2017" := by
    have h4 : some t = some "05/18/2017" := by
      rw [← h1]
      decide
    exact Option.some.inj h4
  subst ht
  exact ⟨h1, h2, h3⟩

/-- When the trade's date converts, `tradeToMint` yields exactly the row the
spec's mapping describes. -/
theorem tradeToMint_eq_spec (t : TradeData)
    (h : (convert_robinhood_date t.date).isSome = true) :
    tradeToMint t = some (specTradeRow t) := by
  obtain ⟨d, hd⟩ := Option.isSome_iff_exists.mp h
  simp [tradeToMint, specTradeRow, hd]

/-- When the dividend's date converts and its amount parses, `dividendToMint`
yields exactly the row the spec's mapping describes. -/
theorem dividendToMint_eq_spec (d : DividendData)
    (h1 : (convert_robinhood_date d.date).isSome = true)
    (h2 : (pyFloat? d.amount).isSome = true) :
    dividendToMint d = some (specDividendRow d) := by
  obtain ⟨c, hc⟩ := Option.isSome_iff_exists.mp h1
  obtain ⟨a, ha⟩ := Option.isSome_iff_exists.mp h2
  simp [dividendToMint, specDividendRow, hc, ha]

/-- Every dict `get_robinhood_trade_data` returns carries
`cost = float(price) * float(quantity)` for its own `price` and `quantity`
strings. -/
theorem trade_cost_spec (api : String → String) (orders : List Order)
    (td : List TradeData) (h : get_robinhood_trade_data api orders = some td) :
    ∀ t ∈ td, ∃ p q, pyFloat? t.price = some p ∧ pyFloat? t.quantity = some q ∧
      t.cost = p * q := by
  induction orders generalizing td with
  | nil =>
    unfold get_robinhood_trade_data tradeFetchLoop at h
    cases h
    intro t ht
    cases ht
  | cons o os ih =>
    unfold get_robinhood_trade_data tradeFetchLoop at h
    cases hex : o.executions with
    | nil =>
      rw [hex] at h
      exact ih td h
    | cons e es =>
      rw [hex] at h
      cases hp : pyFloat? e.price with
      | none =>
        simp only [hp, Option.none_bind] at h
        exact Option.noConfusion h
      | some p =>
      cases hq : pyFloat? e.quantity with
      | none =>
        simp only [hp, hq, Option.some_bind, Option.none_bind] at h
        exact Option.noConfusion h
      | some q =>
      cases hrest : tradeFetchLoop api os with
      | none =>
        simp only [hp, hq, hrest, Option.some_bind, Option.none_bind] at h
        exact Option.noConfusion h
      | some rest =>
        simp only [hp, hq, hrest, Option.some_bind, Option.some.injEq] at h
        subst h
        intro t ht
        rcases List.mem_cons.mp ht with h0 | hmem
        · subst h0
          exact ⟨p, q, hp, hq, rfl⟩
        · exact ih rest hrest t hmem

/-- C6: `parse_robinhood_data_to_mint` is a pure function whose output is all
trade rows first, then all dividend rows, each group in source order, with
each trade mapped by the spec's field mapping (`specTradeRow`); on trade
dicts built by `get_robinhood_trade_data`, the rounded amount is
`round(price * quantity, 2)`. -/
theorem c6_parse_is_ordered_mapping (api : String → String) (orders : List Order)
    (td : List TradeData) (dd : List DividendData)
    (hfetch : get_robinhood_trade_data api orders = some td)
    (htd : ∀ t ∈ td, (convert_robinhood_date t.date).isSome = true)
    (hdd : ∀ d ∈ dd, (convert_robinhood_date d.date).isSome = true ∧
      (pyFloat? d.amount).isSome = true) :
    parse_robinhood_data_to_mint (some td) (some dd) =
      some (td.map specTradeRow ++ dd.map specDividendRow) ∧
    ∀ t ∈ td, ∃ p q, pyFloat? t.price = some p ∧ pyFloat? t.quantity = some q ∧
      (specTradeRow t).amount = npRound2 (p * q) := by
  constructor
  · rw [parse_eq_bind]
    rw [mapOpt_eq_map tradeToMint specTradeRow td
      (fun t ht => tradeToMint_eq_spec t (htd t ht))]
    rw [mapOpt_eq_map dividendToMint specDividendRow dd
      (fun d hd => dividendToMint_eq_spec d (hdd d hd).1 (hdd d hd).2)]
    rfl
  · intro t ht
    obtain ⟨p, q, hp, hq, hc⟩ := trade_cost_spec api orders td hfetch t ht
    refine ⟨p, q, hp, hq, ?_⟩
    simp [specTradeRow, hc]

/-- C6 witness: the spec's Section 8 trade scenario plus one dividend. -/
theorem c6_witness :
    parse_robinhood_data_to_mint (some [demoTrade]) (some [demoDivData]) =
      some ([demoTrade].map specTradeRow ++ [demoDivData].map specDividendRow) :=
  (c6_parse_is_ordered_mapping (fun _ => "AAPL") [demoOrder] [demoTrade]
    [demoDivData] (by rfl) (by decide) (by decide)).1

/-- A row emitted by the trade branch has `amount = np.round(cost, 2)`. -/
theorem tradeToMint_amount (t : TradeData) (r : MintRow)
    (h : tradeToMint t = some r) : r.amount = npRound2 t.cost := by
  unfold tradeToMint at h
  cases hcv : convert_robinhood_date t.date with
  | none =>
    simp only [hcv, Option.none_bind] at h
    exact Option.noConfusion h
  | some d =>
    simp only [hcv, Option.some_bind, Option.some.injEq] at h
    subst h
    rfl

/-- A row emitted by the dividend branch has
`amount = np.round(float(amount), 2)`. -/
theorem dividendToMint_amount (d : DividendData) (r : MintRow)
    (h : dividendToMint d = some r) :
    ∃ a, pyFloat? d.amount = some a ∧ r.amount = npRound2 a := by
  unfold dividendToMint at h
  cases hcv : convert_robinhood_date d.date with
  | none =>
    simp only [hcv, Option.none_bind] at h
    exact Option.noConfusion h
  | some c =>
    simp only [hcv, Option.some_bind] at h
    cases ha : pyFloat? d.amount with
    | none =>
      simp only [ha, Option.none_bind] at h
      exact Option.noConfusion h
    | some a =>
      simp only [ha, Option.some_bind, Option.some.injEq] at h
      subst h
      exact ⟨a, rfl, rfl⟩

/-- C8: with non-negative source price and quantity strings on the trade
dicts and a non-negative source amount string on the dividend dicts, every
emitted row's amount is non-negative and is an exact multiple of 1/100
(rounded to exactly two decimal digits); and for the spec's scenario,
price "12.345" times quantity "2" rounds to exactly 2469/100 = 24.69. -/
theorem c8_amounts_nonneg_two_decimals (api : String → String) (orders : List Order)
    (td : List TradeData) (dd : List DividendData) (rows : List MintRow)
    (hfetch : get_robinhood_trade_data api orders = some td)
    (hparse : parse_robinhood_data_to_mint (some td) (some dd) = some rows)
    (hpq : ∀ t ∈ td, 0 ≤ (pyFloat? t.price).getD 0 ∧ 0 ≤ (pyFloat? t.quantity).getD 0)
    (hda : ∀ d ∈ dd, 0 ≤ (pyFloat? d.amount).getD 0) :
    (∀ r ∈ rows, 0 ≤ r.amount ∧ ∃ n : ℕ, r.amount = (n : ℚ) / 100) ∧
    npRound2 ((pyFloat? "12.345").getD 0 * (pyFloat? "2").getD 0) = 2469 / 100 := by
  constructor
  · rw [parse_eq_bind] at hparse
    cases hm1 : mapOpt tradeToMint td with
    | none =>
      rw [hm1, Option.none_bind] at hparse
      exact Option.noConfusion hparse
    | some m1 =>
    cases hm2 : mapOpt dividendToMint dd with
    | none =>
      rw [hm1, hm2, Option.some_bind, Option.none_bind] at hparse
      exact Option.noConfusion hparse
    | some m2 =>
      rw [hm1, hm2, Option.some_bind, Option.some_bind] at hparse
      injection hparse with hparse
      subst hparse
      intro r hr
      rcases List.mem_append.mp hr with hr1 | hr2
      · obtain ⟨t, ht, hconv⟩ := mapOpt_mem tradeToMint td m1 hm1 r hr1
        have hamt := tradeToMint_amount t r hconv
        obtain ⟨p, q, hp, hq, hcost⟩ := trade_cost_spec api orders td hfetch t ht
        have hp0 : 0 ≤ p := by
          have := (hpq t ht).1
          rwa [hp, Option.getD_some] at this
        have hq0 : 0 ≤ q := by
          have := (hpq t ht).2
          rwa [hq, Option.getD_some] at this
        have hc0 : 0 ≤ t.cost := hcost ▸ mul_nonneg hp0 hq0
        rw [hamt]
        exact ⟨npRound2_nonneg _ hc0, npRound2_two_decimals _ hc0⟩
      · obtain ⟨d, hd, hconv⟩ := mapOpt_mem dividendToMint dd m2 hm2 r hr2
        obtain ⟨a, ha, hamt⟩ := dividendToMint_amount d r hconv
        have ha0 : 0 ≤ a := by
          have := hda d hd
          rwa [ha, Option.getD_some] at this
        rw [hamt]
        exact ⟨npRound2_nonneg _ ha0, npRound2_two_decimals _ ha0⟩
  · rw [show pyFloat? "12.345" = some ((1 : ℚ) *
        ((digitsVal ['1','2'] : ℚ) + (digitsVal ['3','4','5'] : ℚ) / 10 ^ (3 : ℕ)))
        from rfl,
      show pyFloat? "2" = some ((1 : ℚ) * (digitsVal ['2'] : ℚ)) from rfl]
    simp only [Option.getD_some]
    rw [show digitsVal ['1','2'] = 12 from by decide,
      show digitsVal ['3','4','5'] = 345 from by decide,
      show digitsVal ['2'] = 2 from by decide]
    norm_num [npRound2, rintZ]

/-- C8 witness: the scenario row built from the demo trade, with all
hypotheses discharged on concrete data. -/
theorem c8_witness :
    (0 ≤ (specTradeRow demoTrade).amount ∧
      ∃ n : ℕ, (specTradeRow demoTrade).amount = (n : ℚ) / 100) ∧
    npRound2 ((pyFloat? "12.345").getD 0 * (pyFloat? "2").getD 0) = 2469 / 100 := by
  have hpq : ∀ t ∈ [demoTrade],
      0 ≤ (pyFloat? t.price).getD 0 ∧ 0 ≤ (pyFloat? t.quantity).getD 0 := by
    intro t ht
    rw [List.mem_singleton.mp ht]
    constructor
    · rw [show pyFloat? demoTrade.price = some ((1 : ℚ) *
          ((digitsVal ['1','5','0'] : ℚ) + (digitsVal ['0','0','5'] : ℚ) / 10 ^ (3 : ℕ)))
          from rfl]
      simp only [Option.getD_some]
      positivity
    · rw [show pyFloat? demoTrade.quantity = some ((1 : ℚ) * (digitsVal ['1','0'] : ℚ))
          from rfl]
      simp only [Option.getD_some]
      positivity
  have hda : ∀ d ∈ [demoDivData], 0 ≤ (pyFloat? d.amount).getD 0 := by
    intro d hd
    rw [List.mem_singleton.mp hd]
    rw [show pyFloat? demoDivData.amount = some ((1 : ℚ) *
        ((digitsVal ['5'] : ℚ) + (digitsVal ['0','4'] : ℚ) / 10 ^ (2 : ℕ))) from rfl]
    simp only [Option.getD_some]
    positivity
  have h := c8_amounts_nonneg_two_decimals (fun _ => "AAPL") [demoOrder]
    [demoTrade] [demoDivData]
    ([demoTrade].map specTradeRow ++ [demoDivData].map specDividendRow)
    (by rfl) (by rfl) hpq hda
  refine ⟨h.1 (specTradeRow demoTrade) ?_, h.2⟩
  simp

end Robinhood2Quicken
